import Mathlib

/-!
Verification of the core of `pdfmc.py` (Py-PDF-Merger-CLI): a shallow
embedding in Lean 4 of the path collector (`get_pdf_files_in_folders`),
the path validator (`validate_pdf_files`), the merge engine
(`merge_pdfs`) and the list assembly in `main`, together with proofs of
the specified properties.

Filesystem effects are modelled explicitly: `PathFS` models the
`os.path.exists` view of the filesystem used by the validator; `FolderFS`
models directory listing/walking used by the collector; `Codec` models
the external PDF library (`pypdf`): opening a file yields its page list
or fails.  Logging is modelled by returning the list of emitted
warning/error messages alongside the computed value.
-/

set_option autoImplicit false

namespace Pdfmc

/-- Case-insensitive `.pdf` suffix test, embedding the Python idiom
`s.lower().endswith(".pdf")` used by both the validator and the
collector: lowercase every character, then test for the ".pdf" suffix
(stated over the character list so that it evaluates by kernel
reduction). -/
def hasPdfExt (s : String) : Bool :=
  List.isSuffixOf (".pdf".data) (s.data.map Char.toLower)

/-- Embedding of `os.path.join(a, b)` for the POSIX case of a relative
second component. -/
def pathJoin (a b : String) : String :=
  a ++ "/" ++ b

/-- Model of the filesystem as seen through `os.path.exists`: which paths
are regular files and which are directories.  `os.path.exists` is true
for both. -/
structure PathFS where
  isFile : String → Bool
  isDir : String → Bool

/-- Embedding of `os.path.exists(p)`: true when `p` names a regular file
or a directory. -/
def osPathExists (fs : PathFS) (p : String) : Bool :=
  fs.isFile p || fs.isDir p

/-- Embedding of `validate_pdf_files` (pdfmc.py lines 46-56).  For each
path, in order: if `os.path.exists` fails, log a "File not found"
warning and skip it; else if the name does not end case-insensitively in
".pdf", log a "Not a PDF file" warning and skip it; else keep it.
Returns the kept paths together with the logged warnings.  The Python
function is total (it raises nothing), so the embedding is a plain
function. -/
def validate_pdf_files (fs : PathFS) : List String → List String × List String
  | [] => ([], [])
  | p :: rest =>
    let r := validate_pdf_files fs rest
    if osPathExists fs p = false then
      (r.1, ("File not found: " ++ p) :: r.2)
    else if hasPdfExt p = false then
      (r.1, ("Not a PDF file: " ++ p) :: r.2)
    else
      (p :: r.1, r.2)

/-- The kept paths of `validate_pdf_files` are exactly the filter of the
input by existence and extension. -/
theorem validate_fst_eq_filter (fs : PathFS) (paths : List String) :
    (validate_pdf_files fs paths).1
      = paths.filter (fun p => osPathExists fs p && hasPdfExt p) := by
  induction paths with
  | nil => rfl
  | cons p rest ih =>
    simp only [validate_pdf_files, List.filter]
    cases he : osPathExists fs p with
    | false => simp [he, ih]
    | true =>
      cases hx : hasPdfExt p with
      | false => simp [hx, ih]
      | true => simp [hx, ih]

/-- The warning log of `validate_pdf_files`: one message per dropped
path, in input order. -/
theorem validate_snd_eq_filterMap (fs : PathFS) (paths : List String) :
    (validate_pdf_files fs paths).2
      = paths.filterMap (fun p =>
          if osPathExists fs p = false then some ("File not found: " ++ p)
          else if hasPdfExt p = false then some ("Not a PDF file: " ++ p)
          else none) := by
  induction paths with
  | nil => rfl
  | cons p rest ih =>
    simp only [validate_pdf_files, List.filterMap]
    cases he : osPathExists fs p with
    | false => simp [he, ih]
    | true =>
      cases hx : hasPdfExt p with
      | false => simp [hx, ih]
      | true => simp [hx, ih]

end Pdfmc

namespace Pdfmc

/-- C2: for every path list P, `validate_pdf_files` returns a
subsequence of P preserving relative order, containing exactly those
elements of P that exist on the filesystem and end case-insensitively in
".pdf"; every other element is dropped with one logged warning, and the
function is total (never raises). -/
theorem validate_is_order_preserving_filter (fs : PathFS) (P : List String) :
    List.Sublist (validate_pdf_files fs P).1 P
    ∧ (validate_pdf_files fs P).1
        = P.filter (fun p => osPathExists fs p && hasPdfExt p)
    ∧ (validate_pdf_files fs P).2
        = P.filterMap (fun p =>
            if osPathExists fs p = false then some ("File not found: " ++ p)
            else if hasPdfExt p = false then some ("Not a PDF file: " ++ p)
            else none) := by
  refine ⟨?_, validate_fst_eq_filter fs P, validate_snd_eq_filterMap fs P⟩
  rw [validate_fst_eq_filter]
  exact List.filter_sublist P

end Pdfmc

namespace Pdfmc

/-- A PDF page as the merge engine sees it: its content stream, plus a
flag recording whether the content stream has been re-compressed.  The
code under verification never touches pages individually, so the flag is
only changed by the spec-side compression model below. -/
structure Page where
  content : Nat
  compressed : Bool
deriving DecidableEq

/-- Model of the external PDF codec (`pypdf`): opening a file either
yields the document's page list in its internal order, or fails (corrupt
or unreadable file), in which case `PdfWriter.append` raises. -/
structure Codec where
  openFile : String → Option (List Page)

/-- The accumulation loop of `merge_pdfs`: `writer.append(file)` for
each input file in order.  `append` opens the file and appends all of
its pages, in the document's internal order, to the writer; an open
failure raises, which propagates out of the loop (there is no
try/except in `merge_pdfs`, pdfmc.py lines 85-89). -/
def appendLoop (codec : Codec) (acc : List Page) : List String → Except String (List Page)
  | [] => Except.ok acc
  | f :: rest =>
    match codec.openFile f with
    | none => Except.error ("cannot open " ++ f)
    | some doc => appendLoop codec (acc ++ doc) rest

/-- Embedding of `merge_pdfs` (pdfmc.py lines 85-89): start from an
empty `PdfWriter`, append every input file in order, then write.
`PdfWriter.write` serializes whatever pages were accumulated — pypdf
writes a zero-page document without error — so on success the result is
the page list of the written output document; on an open failure the
exception propagates and nothing is written. -/
def merge_pdfs (codec : Codec) (input_files : List String) : Except String (List Page) :=
  appendLoop codec [] input_files

theorem appendLoop_ok_concat (codec : Codec) (files : List String)
    (docs : List (List Page)) (acc : List Page)
    (h : files.map codec.openFile = docs.map Option.some) :
    appendLoop codec acc files = Except.ok (acc ++ docs.flatten) := by
  induction files generalizing docs acc with
  | nil =>
    cases docs with
    | nil => simp [appendLoop]
    | cons d ds => simp at h
  | cons f rest ih =>
    cases docs with
    | nil => simp at h
    | cons d ds =>
      simp only [List.map] at h
      have h1 : codec.openFile f = some d := (List.cons.injEq _ _ _ _ ▸ h).1
      have h2 : rest.map codec.openFile = ds.map Option.some :=
        (List.cons.injEq _ _ _ _ ▸ h).2
      simp only [appendLoop, h1]
      rw [ih ds (acc ++ d) h2]
      simp

/-- If some input file fails to open, the whole merge fails: the
exception from `writer.append` propagates out of `merge_pdfs`. -/
theorem appendLoop_error_of_open_failure (codec : Codec) (files : List String)
    (acc : List Page) (f : String) (hmem : f ∈ files)
    (hopen : codec.openFile f = none) :
    ∃ e, appendLoop codec acc files = Except.error e := by
  induction files generalizing acc with
  | nil => cases hmem
  | cons g rest ih =>
    simp only [appendLoop]
    cases hg : codec.openFile g with
    | none => exact ⟨"cannot open " ++ g, rfl⟩
    | some doc =>
      rcases List.mem_cons.mp hmem with rfl | hmem'
      · rw [hg] at hopen; cases hopen
      · exact ih (acc ++ doc) hmem'

/-- Every page of a successful merge output is a page of one of the
input documents, unchanged. -/
theorem appendLoop_pages_from_inputs (codec : Codec) (files : List String)
    (acc out : List Page) (hok : appendLoop codec acc files = Except.ok out)
    (p : Page) (hp : p ∈ out) :
    p ∈ acc ∨ ∃ f d, f ∈ files ∧ codec.openFile f = some d ∧ p ∈ d := by
  induction files generalizing acc with
  | nil =>
    simp only [appendLoop, Except.ok.injEq] at hok
    subst hok
    exact Or.inl hp
  | cons g rest ih =>
    simp only [appendLoop] at hok
    cases hg : codec.openFile g with
    | none => rw [hg] at hok; cases hok
    | some doc =>
      rw [hg] at hok
      rcases ih (acc ++ doc) hok with hacc | ⟨f, d, hf, ho, hpd⟩
      · rcases List.mem_append.mp hacc with h1 | h2
        · exact Or.inl h1
        · exact Or.inr ⟨g, doc, List.mem_cons_self g rest, hg, h2⟩
      · exact Or.inr ⟨f, d, List.mem_cons_of_mem g hf, ho, hpd⟩

end Pdfmc

namespace Pdfmc

/-- C1: if every input file opens successfully, the merged output's page
sequence is exactly the concatenation, in input-list order, of each
input document's own internal page order. -/
theorem merge_pages_concat_in_order (codec : Codec) (files : List String)
    (docs : List (List Page))
    (h : files.map codec.openFile = docs.map Option.some) :
    merge_pdfs codec files = Except.ok docs.flatten := by
  have := appendLoop_ok_concat codec files docs [] h
  simpa [merge_pdfs] using this

/-- Concrete codec for witnesses: file "A" has pages 1-2, file "B" has
pages 3-5, file "BAD" is corrupt (open fails), everything else is
missing. -/
def codecW : Codec where
  openFile := fun f =>
    if f = "A" then some [⟨1, false⟩, ⟨2, false⟩]
    else if f = "B" then some [⟨3, false⟩, ⟨4, false⟩, ⟨5, false⟩]
    else none

/-- Witness for C1: merging "A" (2 pages) then "B" (3 pages) yields
exactly A's pages followed by B's pages, 5 pages in total. -/
theorem merge_pages_concat_in_order_witness :
    merge_pdfs codecW ["A", "B"]
      = Except.ok [⟨1, false⟩, ⟨2, false⟩, ⟨3, false⟩, ⟨4, false⟩, ⟨5, false⟩] := by
  have h : (["A", "B"]).map codecW.openFile
      = ([[(⟨1, false⟩ : Page), ⟨2, false⟩], [⟨3, false⟩, ⟨4, false⟩, ⟨5, false⟩]]).map Option.some := by
    decide
  have := merge_pages_concat_in_order codecW ["A", "B"]
    [[⟨1, false⟩, ⟨2, false⟩], [⟨3, false⟩, ⟨4, false⟩, ⟨5, false⟩]] h
  simpa using this

end Pdfmc

namespace Pdfmc

/-- A codec under which file "BAD" is corrupt: opening it fails, while
"A" and "B" open as in `codecW`. -/
def codecBad : Codec where
  openFile := fun f =>
    if f = "A" then some [⟨1, false⟩, ⟨2, false⟩]
    else if f = "B" then some [⟨3, false⟩, ⟨4, false⟩, ⟨5, false⟩]
    else none

/-- Counterexample to C3: merging "A", corrupt "BAD", "B" does not
succeed with the pages of "A" and "B" — the open failure propagates out
of `merge_pdfs` (no try/except around `writer.append`) and the whole
merge fails. -/
theorem merge_no_skip_on_open_failure_cex :
    merge_pdfs codecBad ["A", "BAD", "B"] = Except.error ("cannot open " ++ "BAD")
    ∧ merge_pdfs codecBad ["A", "BAD", "B"]
        ≠ Except.ok [⟨1, false⟩, ⟨2, false⟩, ⟨3, false⟩, ⟨4, false⟩, ⟨5, false⟩] := by
  constructor
  · rfl
  · intro h
    cases h

/-- C3 amended: if any input file fails to open, `merge_pdfs` does not
skip it — the exception propagates, the merge aborts with an error, the
remaining files are not merged and no output is written. -/
theorem merge_fails_on_open_failure (codec : Codec) (files : List String)
    (f : String) (hmem : f ∈ files) (hopen : codec.openFile f = none) :
    ∃ e, merge_pdfs codec files = Except.error e :=
  appendLoop_error_of_open_failure codec files [] f hmem hopen

/-- Witness for the amended C3 at the concrete corrupt-file input. -/
theorem merge_fails_on_open_failure_witness :
    "BAD" ∈ ["A", "BAD", "B"] ∧ codecBad.openFile "BAD" = none
    ∧ ∃ e, merge_pdfs codecBad ["A", "BAD", "B"] = Except.error e :=
  ⟨by decide, by rfl,
    merge_fails_on_open_failure codecBad ["A", "BAD", "B"] "BAD" (by decide) (by rfl)⟩

/-- Counterexample to C4: merging an empty resolved path list does not
fail — `PdfWriter.write` serializes the zero-page document and
`merge_pdfs` returns successfully, producing an empty output document at
the destination.  The program defines no MergeError and performs no
zero-page check. -/
theorem merge_empty_list_succeeds_cex :
    merge_pdfs codecBad [] = Except.ok [] := by
  rfl

/-- C4 amended: merging an empty resolved path list succeeds under every
codec, silently writing a zero-page output document; no failure of any
kind is raised. -/
theorem merge_empty_list_writes_empty_doc (codec : Codec) :
    merge_pdfs codec [] = Except.ok [] := by
  rfl

/-- Modelled from the spec: content-stream compression at a fixed high
compression level re-encodes a page's stream; in the model it marks the
page's `compressed` flag. -/
def specCompressPage (p : Page) : Page :=
  ⟨p.content, true⟩

/-- Modelled from the spec ("for each page, apply content-stream
compression at a fixed high compression level, then append"): the merge
loop the spec describes, identical to `appendLoop` except that every
page is compressed before being appended. -/
def specAppendLoopCompressed (codec : Codec) (acc : List Page) :
    List String → Except String (List Page)
  | [] => Except.ok acc
  | f :: rest =>
    match codec.openFile f with
    | none => Except.error ("cannot open " ++ f)
    | some doc => specAppendLoopCompressed codec (acc ++ doc.map specCompressPage) rest

/-- Counterexample to C5: merging file "A" leaves both of its pages with
their content streams uncompressed — `merge_pdfs` never calls any
compression routine, so its output differs from the compressing merge
the spec describes. -/
theorem merge_does_not_compress_cex :
    merge_pdfs codecBad ["A"] = Except.ok [⟨1, false⟩, ⟨2, false⟩]
    ∧ specAppendLoopCompressed codecBad [] ["A"] = Except.ok [⟨1, true⟩, ⟨2, true⟩]
    ∧ merge_pdfs codecBad ["A"] ≠ specAppendLoopCompressed codecBad [] ["A"] := by
  refine ⟨rfl, rfl, ?_⟩
  intro h
  rw [show merge_pdfs codecBad ["A"] = Except.ok [⟨1, false⟩, ⟨2, false⟩] from rfl,
    show specAppendLoopCompressed codecBad [] ["A"] = Except.ok [⟨1, true⟩, ⟨2, true⟩] from rfl] at h
  cases h

/-- C5 amended: no compression is applied during merge — every page of a
successful output is literally a page of one of the opened input
documents, unchanged. -/
theorem merge_pages_unmodified (codec : Codec) (files : List String)
    (out : List Page) (hok : merge_pdfs codec files = Except.ok out)
    (p : Page) (hp : p ∈ out) :
    ∃ f d, f ∈ files ∧ codec.openFile f = some d ∧ p ∈ d := by
  rcases appendLoop_pages_from_inputs codec files [] out hok p hp with hacc | h
  · cases hacc
  · exact h

/-- Witness for the amended C5: page 1 of the merged output of "A" is
exactly page 1 of input "A", still uncompressed. -/
theorem merge_pages_unmodified_witness :
    merge_pdfs codecBad ["A"] = Except.ok [⟨1, false⟩, ⟨2, false⟩]
    ∧ (⟨1, false⟩ : Page) ∈ ([⟨1, false⟩, ⟨2, false⟩] : List Page)
    ∧ ∃ f d, f ∈ ["A"] ∧ codecBad.openFile f = some d ∧ (⟨1, false⟩ : Page) ∈ d :=
  ⟨rfl, by decide,
    merge_pages_unmodified codecBad ["A"] [⟨1, false⟩, ⟨2, false⟩] rfl ⟨1, false⟩ (by decide)⟩

end Pdfmc

namespace Pdfmc

/-- A directory entry: a regular file, or a subdirectory with its own
entries.  The tree models the part of the filesystem reachable from a
scanned folder. -/
inductive FSEntry where
  | file (name : String)
  | dir (name : String) (children : List FSEntry)

/-- The name under which an entry appears in its parent directory
listing (`os.listdir` yields names of all entries, files and
subdirectories alike). -/
def entryName : FSEntry → String
  | FSEntry.file n => n
  | FSEntry.dir n _ => n

/-- The names of the regular-file entries of a directory, in listing
order: the third component of an `os.walk` frame. -/
def fileNames : List FSEntry → List String
  | [] => []
  | FSEntry.file n :: rest => n :: fileNames rest
  | FSEntry.dir _ _ :: rest => fileNames rest

/-- The names of the subdirectory entries of a directory, in listing
order: the second component of an `os.walk` frame. -/
def dirNames : List FSEntry → List String
  | [] => []
  | FSEntry.file _ :: rest => dirNames rest
  | FSEntry.dir n _ :: rest => n :: dirNames rest

/-- One frame yielded by `os.walk`: the directory path, its subdirectory
names and its regular-file names. -/
abbrev WalkFrame := String × List String × List String

mutual
/-- Embedding of top-down `os.walk` on a readable tree: yield the frame
for the current directory, then walk each subdirectory in listing
order. -/
def walkTree (root : String) (cs : List FSEntry) : List WalkFrame :=
  (root, dirNames cs, fileNames cs) :: walkSubdirs root cs

/-- The recursive descent of `os.walk` into the subdirectory entries of
`root`, in listing order. -/
def walkSubdirs (root : String) : List FSEntry → List WalkFrame
  | [] => []
  | FSEntry.file _ :: rest => walkSubdirs root rest
  | FSEntry.dir n cs :: rest => walkTree (pathJoin root n) cs ++ walkSubdirs root rest
end

/-- Model of the filesystem as seen by the folder collector: resolving a
folder path yields its entry tree, or nothing when the folder cannot be
listed (missing, permission denied, not a directory).  On such a folder
`os.listdir` raises, while `os.walk` silently yields no frames (its
`onerror` default ignores the `scandir` error). -/
structure FolderFS where
  lookup : String → Option (List FSEntry)

/-- Embedding of `os.walk(folder)`: all frames of the tree when the
folder is listable, and no frames at all (no exception) otherwise. -/
def osWalk (fs : FolderFS) (folder : String) : List WalkFrame :=
  match fs.lookup folder with
  | none => []
  | some cs => walkTree folder cs

/-- The inner list comprehension of `get_pdf_files_in_folders` (pdfmc.py
line 39): from one frame, keep the entries whose name ends
case-insensitively in ".pdf" and join them to the frame's root. -/
def framePdfs : WalkFrame → List String
  | (root, _, files) => (files.filter hasPdfExt).map (fun n => pathJoin root n)

/-- The body of the per-folder loop of `get_pdf_files_in_folders`
(pdfmc.py lines 35-42): choose `os.walk` (recursive) or a single
`os.listdir` frame (non-recursive), collect the ".pdf"-named entries of
every frame, and catch any exception by logging an error for the folder.
Only `os.listdir` on an unlistable folder raises; `os.walk` never does.
Returns the collected paths and the logged errors. -/
def processFolder (fs : FolderFS) (recursive : Bool) (folder : String) :
    List String × List String :=
  if recursive then
    (((osWalk fs folder).map framePdfs).flatten, [])
  else
    match fs.lookup folder with
    | none => ([], ["Error processing folder " ++ folder])
    | some cs => (framePdfs (folder, [], cs.map entryName), [])

/-- Embedding of `get_pdf_files_in_folders` (pdfmc.py lines 32-43):
process each folder in the order given, concatenating the collected
paths and the logged errors. -/
def get_pdf_files_in_folders (fs : FolderFS) : List String → Bool → List String × List String
  | [], _ => ([], [])
  | folder :: rest, recursive =>
    let c := processFolder fs recursive folder
    let t := get_pdf_files_in_folders fs rest recursive
    (c.1 ++ t.1, c.2 ++ t.2)

end Pdfmc

namespace Pdfmc

/-- FileAt root cs dp n: within the tree `cs` rooted at path `root`, the
directory whose path is `dp` contains a regular-file entry named `n` —
at top level (`dp = root`) or at any depth below. -/
inductive FileAt : String → List FSEntry → String → String → Prop where
  | top {root : String} {cs : List FSEntry} {n : String} :
      FSEntry.file n ∈ cs → FileAt root cs root n
  | sub {root : String} {cs : List FSEntry} {d : String} {cs' : List FSEntry} {dp n : String} :
      FSEntry.dir d cs' ∈ cs → FileAt (pathJoin root d) cs' dp n → FileAt root cs dp n

theorem mem_fileNames_of_mem (cs : List FSEntry) (n : String)
    (h : FSEntry.file n ∈ cs) : n ∈ fileNames cs := by
  induction cs with
  | nil => cases h
  | cons e rest ih =>
    cases e with
    | file m =>
      rcases List.mem_cons.mp h with he | hr
      · cases he
        exact List.mem_cons_self _ _
      · exact List.mem_cons_of_mem _ (ih hr)
    | dir d cs' =>
      rcases List.mem_cons.mp h with he | hr
      · cases he
      · exact ih hr

theorem mem_walkSubdirs_of_mem_walkTree (root : String) (cs : List FSEntry)
    (d : String) (cs' : List FSEntry) (fr : WalkFrame)
    (hd : FSEntry.dir d cs' ∈ cs) (hfr : fr ∈ walkTree (pathJoin root d) cs') :
    fr ∈ walkSubdirs root cs := by
  induction cs with
  | nil => cases hd
  | cons e rest ih =>
    cases e with
    | file m =>
      rcases List.mem_cons.mp hd with he | hr
      · cases he
      · simpa [walkSubdirs] using ih hr
    | dir m ms =>
      simp only [walkSubdirs]
      rcases List.mem_cons.mp hd with he | hr
      · cases he
        exact List.mem_append_left _ hfr
      · exact List.mem_append_right _ (ih hr)

/-- Completeness of the `os.walk` embedding: every file at any depth of
the tree appears in the file-name component of some yielded frame whose
root is that file's directory path. -/
theorem walkTree_complete (root : String) (cs : List FSEntry) (dp n : String)
    (h : FileAt root cs dp n) :
    ∃ ds fls, (dp, ds, fls) ∈ walkTree root cs ∧ n ∈ fls := by
  induction h with
  | top hmem =>
    rename_i root1 cs1 n1
    refine ⟨dirNames cs1, fileNames cs1, ?_, mem_fileNames_of_mem _ _ hmem⟩
    simp only [walkTree]
    exact List.mem_cons_self _ _
  | sub hd _ ih =>
    rcases ih with ⟨ds, fls, hfr, hn⟩
    refine ⟨ds, fls, ?_, hn⟩
    simp only [walkTree]
    exact List.mem_cons_of_mem _ (mem_walkSubdirs_of_mem_walkTree _ _ _ _ _ hd hfr)

theorem mem_processFolder_recursive (fs : FolderFS) (folder : String)
    (cs : List FSEntry) (dp n : String) (hl : fs.lookup folder = some cs)
    (h : FileAt folder cs dp n) (hext : hasPdfExt n = true) :
    pathJoin dp n ∈ (processFolder fs true folder).1 := by
  rcases walkTree_complete folder cs dp n h with ⟨ds, fls, hfr, hn⟩
  have hjoin : pathJoin dp n ∈ framePdfs (dp, ds, fls) := by
    simp only [framePdfs]
    exact List.mem_map_of_mem _ (List.mem_filter.mpr ⟨hn, hext⟩)
  simp only [processFolder, if_pos, osWalk, hl]
  exact List.mem_flatten.mpr ⟨framePdfs (dp, ds, fls), List.mem_map_of_mem _ hfr, hjoin⟩

theorem mem_gpdf_iff (fs : FolderFS) (folders : List String) (r : Bool) (p : String) :
    p ∈ (get_pdf_files_in_folders fs folders r).1
      ↔ ∃ folder, folder ∈ folders ∧ p ∈ (processFolder fs r folder).1 := by
  induction folders with
  | nil => simp [get_pdf_files_in_folders]
  | cons f rest ih =>
    simp only [get_pdf_files_in_folders, List.mem_append, ih]
    constructor
    · rintro (hp | ⟨g, hg, hp⟩)
      · exact ⟨f, List.mem_cons_self _ _, hp⟩
      · exact ⟨g, List.mem_cons_of_mem _ hg, hp⟩
    · rintro ⟨g, hg, hp⟩
      rcases List.mem_cons.mp hg with rfl | hg'
      · exact Or.inl hp
      · exact Or.inr ⟨g, hg', hp⟩

end Pdfmc

namespace Pdfmc

/-- C7: with recursive=false the collector discovers only ".pdf"-named
top-level entries of the listed folders (never anything from a
subdirectory), while with recursive=true it discovers the path of every
".pdf"-named file at every depth of every listable folder's tree. -/
theorem folder_scan_depth_behaviour :
    (∀ (fs : FolderFS) (folders : List String) (p : String),
        p ∈ (get_pdf_files_in_folders fs folders false).1 →
        ∃ folder cs n, folder ∈ folders ∧ fs.lookup folder = some cs
          ∧ n ∈ cs.map entryName ∧ hasPdfExt n = true ∧ p = pathJoin folder n)
    ∧ (∀ (fs : FolderFS) (folders : List String) (folder : String) (cs : List FSEntry)
        (dp n : String), folder ∈ folders → fs.lookup folder = some cs →
        FileAt folder cs dp n → hasPdfExt n = true →
        pathJoin dp n ∈ (get_pdf_files_in_folders fs folders true).1) := by
  constructor
  · intro fs folders p hp
    rcases (mem_gpdf_iff fs folders false p).mp hp with ⟨folder, hf, hpf⟩
    simp only [processFolder, if_neg, Bool.false_eq_true, not_false_iff] at hpf
    cases hl : fs.lookup folder with
    | none => rw [hl] at hpf; cases hpf
    | some cs =>
      rw [hl] at hpf
      simp only [framePdfs] at hpf
      rcases List.mem_map.mp hpf with ⟨n, hn, rfl⟩
      have hn' := List.mem_filter.mp hn
      exact ⟨folder, cs, n, hf, hl, hn'.1, hn'.2, rfl⟩
  · intro fs folders folder cs dp n hf hl h hext
    exact (mem_gpdf_iff fs folders true (pathJoin dp n)).mpr
      ⟨folder, hf, mem_processFolder_recursive fs folder cs dp n hl h hext⟩

/-- Concrete folder tree for witnesses: folder "F" contains file
"a.pdf", subdirectory "sub" holding file "b.pdf", file "notes.txt", and
an empty subdirectory named "scans.pdf"; every other path is
unlistable. -/
def treeW : List FSEntry :=
  [FSEntry.file "a.pdf", FSEntry.dir "sub" [FSEntry.file "b.pdf"],
   FSEntry.file "notes.txt", FSEntry.dir "scans.pdf" []]

def folderFsW : FolderFS where
  lookup := fun f => if f = "F" then some treeW else none

/-- Witness for C7: "F/a.pdf" discovered non-recursively is a top-level
entry of "F"; the nested file "F/sub/b.pdf" is discovered by the
recursive scan. -/
theorem folder_scan_depth_behaviour_witness :
    (∃ folder cs n, folder ∈ ["F"] ∧ folderFsW.lookup folder = some cs
       ∧ n ∈ cs.map entryName ∧ hasPdfExt n = true
       ∧ pathJoin "F" "a.pdf" = pathJoin folder n)
    ∧ pathJoin (pathJoin "F" "sub") "b.pdf"
        ∈ (get_pdf_files_in_folders folderFsW ["F"] true).1 :=
  ⟨folder_scan_depth_behaviour.1 folderFsW ["F"] (pathJoin "F" "a.pdf") (by decide),
   folder_scan_depth_behaviour.2 folderFsW ["F"] "F" treeW (pathJoin "F" "sub") "b.pdf"
     (List.mem_cons_self _ _) rfl
     (FileAt.sub (List.mem_cons_of_mem _ (List.mem_cons_self _ _))
       (FileAt.top (List.mem_cons_self _ _)))
     (by decide)⟩

end Pdfmc

namespace Pdfmc

/-- Processing a list of folders splits over concatenation: both the
collected paths and the logged errors. -/
theorem gpdf_append (fs : FolderFS) (xs ys : List String) (r : Bool) :
    get_pdf_files_in_folders fs (xs ++ ys) r
      = ((get_pdf_files_in_folders fs xs r).1 ++ (get_pdf_files_in_folders fs ys r).1,
         (get_pdf_files_in_folders fs xs r).2 ++ (get_pdf_files_in_folders fs ys r).2) := by
  induction xs with
  | nil => simp [get_pdf_files_in_folders]
  | cons f rest ih => simp [get_pdf_files_in_folders, ih, List.append_assoc]

/-- A filesystem in which no folder is listable. -/
def fsUnlistable : FolderFS where
  lookup := fun _ => none

/-- Counterexample to C8: scanning the unlistable folder "bad" in
recursive mode logs nothing — `os.walk` swallows the `scandir` error
(its `onerror` default), so the `except` branch never runs and no error
is logged, contradicting "logs an error ... in both the recursive and
the non-recursive mode".  Non-recursively the same folder does log an
error, because `os.listdir` raises. -/
theorem walk_silent_on_unlistable_folder_cex :
    (get_pdf_files_in_folders fsUnlistable ["bad"] true).2 = []
    ∧ (get_pdf_files_in_folders fsUnlistable ["bad"] true).1 = []
    ∧ (get_pdf_files_in_folders fsUnlistable ["bad"] false).2
        = ["Error processing folder " ++ "bad"] :=
  ⟨rfl, rfl, rfl⟩

/-- C8 amended: an unlistable folder contributes no files and processing
continues with the remaining folders in both modes, but an error is
logged for it only in non-recursive mode; in recursive mode `os.walk`
ignores the failure silently. -/
theorem unlistable_folder_skipped (fs : FolderFS) (f : String)
    (hf : fs.lookup f = none) (xs ys : List String) (r : Bool) :
    get_pdf_files_in_folders fs (xs ++ f :: ys) r
      = ((get_pdf_files_in_folders fs xs r).1 ++ (get_pdf_files_in_folders fs ys r).1,
         (get_pdf_files_in_folders fs xs r).2
           ++ ((if r then [] else ["Error processing folder " ++ f])
             ++ (get_pdf_files_in_folders fs ys r).2)) := by
  have hp : processFolder fs r f
      = ([], if r then [] else ["Error processing folder " ++ f]) := by
    cases r with
    | true => simp [processFolder, osWalk, hf]
    | false => simp [processFolder, hf]
  rw [gpdf_append]
  simp [get_pdf_files_in_folders, hp]

/-- Witness for the amended C8: with folder "bad" unlistable between two
scans of "F", the collected paths are those of the two "F" scans and the
only log entry is the non-recursive error for "bad". -/
theorem unlistable_folder_skipped_witness :
    folderFsW.lookup "bad" = none
    ∧ get_pdf_files_in_folders folderFsW (["F"] ++ "bad" :: ["F"]) false
        = ((get_pdf_files_in_folders folderFsW ["F"] false).1
             ++ (get_pdf_files_in_folders folderFsW ["F"] false).1,
           (get_pdf_files_in_folders folderFsW ["F"] false).2
             ++ ((if false then [] else ["Error processing folder " ++ "bad"])
               ++ (get_pdf_files_in_folders folderFsW ["F"] false).2)) :=
  ⟨rfl, unlistable_folder_skipped folderFsW "bad" rfl ["F"] ["F"] false⟩

/-- Embedding of the file-list assembly of `main` (pdfmc.py lines
119-126): start from `files = []`; if `args.files` is truthy (present
and non-empty), append the validated explicit files; if `args.folders`
is truthy, append the folder-discovered files, scanned with the given
recursive flag. -/
def main_files (pfs : PathFS) (ffs : FolderFS)
    (filesArg foldersArg : Option (List String)) (recursive : Bool) : List String :=
  let files0 : List String := []
  let files1 :=
    match filesArg with
    | none => files0
    | some fl => if fl.isEmpty then files0 else files0 ++ (validate_pdf_files pfs fl).1
  match foldersArg with
  | none => files1
  | some fol =>
    if fol.isEmpty then files1
    else files1 ++ (get_pdf_files_in_folders ffs fol recursive).1

/-- C6: given both explicit files and folders, the final merge list is
exactly the validated explicit files (in the order supplied) followed by
all folder-discovered files, and folder processing distributes over the
folder list in the order given. -/
theorem main_list_order (pfs : PathFS) (ffs : FolderFS) (ef fl : List String)
    (r : Bool) (hef : ef ≠ []) (hfl : fl ≠ []) :
    main_files pfs ffs (some ef) (some fl) r
      = (validate_pdf_files pfs ef).1 ++ (get_pdf_files_in_folders ffs fl r).1
    ∧ ∀ fl1 fl2 : List String,
        (get_pdf_files_in_folders ffs (fl1 ++ fl2) r).1
          = (get_pdf_files_in_folders ffs fl1 r).1
            ++ (get_pdf_files_in_folders ffs fl2 r).1 := by
  constructor
  · have h1 : ef.isEmpty = false := by
      cases ef with
      | nil => cases hef rfl
      | cons a l => rfl
    have h2 : fl.isEmpty = false := by
      cases fl with
      | nil => cases hfl rfl
      | cons a l => rfl
    simp [main_files, h1, h2]
  · intro fl1 fl2
    rw [gpdf_append]

/-- Concrete validator filesystem for witnesses: "x.pdf" is a regular
file, "D.pdf" is a directory, nothing else exists. -/
def pathFsW : PathFS where
  isFile := fun p => p == "x.pdf"
  isDir := fun p => p == "D.pdf"

/-- Witness for C6 at a concrete run with one explicit file and one
folder. -/
theorem main_list_order_witness :
    (["x.pdf"] : List String) ≠ [] ∧ (["F"] : List String) ≠ []
    ∧ main_files pathFsW folderFsW (some ["x.pdf"]) (some ["F"]) false
        = (validate_pdf_files pathFsW ["x.pdf"]).1
          ++ (get_pdf_files_in_folders folderFsW ["F"] false).1 :=
  ⟨by decide, by decide,
    (main_list_order pathFsW folderFsW ["x.pdf"] ["F"] false (by decide) (by decide)).1⟩

/-- C9: a path that is a directory (not a regular file) but ends
case-insensitively in ".pdf" passes `validate_pdf_files`, because the
existence check is `os.path.exists`, which is true for directories. -/
theorem directory_passes_validator (fs : PathFS) (p : String) (P : List String)
    (hdir : fs.isDir p = true) (hnotfile : fs.isFile p = false)
    (hext : hasPdfExt p = true) (hmem : p ∈ P) :
    p ∈ (validate_pdf_files fs P).1 := by
  rw [validate_fst_eq_filter]
  refine List.mem_filter.mpr ⟨hmem, ?_⟩
  simp [osPathExists, hdir, hext]

/-- Witness for C9: the directory "D.pdf" survives validation. -/
theorem directory_passes_validator_witness :
    pathFsW.isDir "D.pdf" = true ∧ pathFsW.isFile "D.pdf" = false
    ∧ hasPdfExt "D.pdf" = true ∧ "D.pdf" ∈ (["D.pdf"] : List String)
    ∧ "D.pdf" ∈ (validate_pdf_files pathFsW ["D.pdf"]).1 :=
  ⟨by decide, by decide, by decide, by decide,
    directory_passes_validator pathFsW "D.pdf" ["D.pdf"]
      (by decide) (by decide) (by decide) (by decide)⟩

/-- C10: in non-recursive scanning, every directory entry whose name
ends case-insensitively in ".pdf" is discovered — `os.listdir` yields
all entry names, subdirectories included, and no file-type check is
applied. -/
theorem listdir_keeps_pdf_named_dir_entries (fs : FolderFS) (folder : String)
    (cs : List FSEntry) (e : FSEntry) (hl : fs.lookup folder = some cs)
    (he : e ∈ cs) (hext : hasPdfExt (entryName e) = true) :
    pathJoin folder (entryName e) ∈ (get_pdf_files_in_folders fs [folder] false).1 := by
  have hpf : pathJoin folder (entryName e) ∈ (processFolder fs false folder).1 := by
    have h1 : (processFolder fs false folder).1
        = ((cs.map entryName).filter hasPdfExt).map (fun n => pathJoin folder n) := by
      simp [processFolder, hl, framePdfs]
    rw [h1]
    exact List.mem_map_of_mem _ (List.mem_filter.mpr ⟨List.mem_map_of_mem _ he, hext⟩)
  exact (mem_gpdf_iff fs [folder] false _).mpr ⟨folder, List.mem_cons_self _ _, hpf⟩

/-- Witness for C10: the subdirectory "scans.pdf" of folder "F" is
discovered by the non-recursive scan. -/
theorem listdir_keeps_pdf_named_dir_entries_witness :
    folderFsW.lookup "F" = some treeW
    ∧ FSEntry.dir "scans.pdf" [] ∈ treeW
    ∧ hasPdfExt (entryName (FSEntry.dir "scans.pdf" [])) = true
    ∧ pathJoin "F" (entryName (FSEntry.dir "scans.pdf" []))
        ∈ (get_pdf_files_in_folders folderFsW ["F"] false).1 :=
  ⟨rfl, by simp [treeW], by decide,
    listdir_keeps_pdf_named_dir_entries folderFsW "F" treeW (FSEntry.dir "scans.pdf" [])
      rfl (by simp [treeW]) (by decide)⟩

end Pdfmc
